import Mathlib

/-!
Verification model of the `influx-writer` repository (`src/influx.rs`):
the line-protocol encoder (`serialize`, `serialize_owned` and their escaping
helpers), the `OwnedMeasurement` data type, and the batching writer loop
(the `next` flush closure, the `send` closure, and the receive loop of
`InfluxWriter::with_logger`), together with theorems settling the frozen
claims about them.

Strings are modelled as Lean `String`; the character-level work happens on
`List Char` via `String.data`.  Rust's `str::replace` (leftmost,
non-overlapping) is embedded for the two pattern shapes the source uses:
a single-character pattern (`replaceChar`) and the three-character pattern
`\\"` (`replaceEscQuote`).  `f64` and `d128` are modelled abstractly by
their finiteness classification and their `Display` output, which is all
the code inspects.
-/

namespace Influx

/-- Rust `str::replace` for a single-character pattern `p`: every
occurrence of `p` is replaced by `rep` (scanning left to right). -/
def replaceChar (p : Char) (rep : List Char) : List Char → List Char
  | [] => []
  | c :: rest =>
    if c = p then rep ++ replaceChar p rep rest
    else c :: replaceChar p rep rest

/-- Rust `str::replace` for the three-character pattern `\\"` with
replacement `\"` (leftmost, non-overlapping), as used by `as_string`. -/
def replaceEscQuote : List Char → List Char
  | [] => []
  | '\\' :: '\\' :: '"' :: t2 => '\\' :: '"' :: replaceEscQuote t2
  | c :: t => c :: replaceEscQuote t

/-- `escape_tag` from the source: removes space, comma and double-quote
(`s.replace(" ", "").replace(",", "").replace("\"", "")`). -/
def escape_tag (s : String) : String :=
  ⟨replaceChar '"' [] (replaceChar ',' [] (replaceChar ' ' [] s.data))⟩

/-- `escape` from the source: backslash-escapes space and comma
(`s.replace(" ", "\\ ").replace(",", "\\,")`). -/
def escape (s : String) : String :=
  ⟨replaceChar ',' ['\\', ','] (replaceChar ' ' ['\\', ' '] s.data)⟩

/-- The quote-escaping core of `as_string`:
`s.replace("\"", "\\\"").replace(r5c5c22, r5c22)` where `r5c5c22` is the
two-characters-backslash-then-quote pattern `\\"` and `r5c22` is `\"`
(the second pass removes double escapes, per the source comment). -/
def escQuotes (l : List Char) : List Char :=
  replaceEscQuote (replaceChar '"' ['\\', '"'] l)

/-- `as_string` from the source:
`format!("\"{}\"", s.replace("\"", "\\\"").replace(..))`. -/
def as_string (s : String) : String :=
  "\"" ++ String.mk (escQuotes s.data) ++ "\""

/-- `as_integer` from the source: `format!("{}i", i)`. -/
def as_integer (i : Int) : String := toString i ++ "i"

/-- `as_boolean` from the source. -/
def as_boolean (b : Bool) : String := if b then "t" else "f"

/-- Abstract model of Rust `f64` as far as the source inspects it:
its finiteness classification and its `Display` rendering.  A finite
float carries its (shortest-decimal) `Display` string; the non-finite
values render as `NaN`, `inf`, `-inf` (Rust's `Display for f64`). -/
inductive F64 where
  | finite (rep : String)
  | nan
  | inf
  | negInf
deriving DecidableEq

def F64.is_finite : F64 → Bool
  | .finite _ => true
  | _ => false

/-- Rust `Display` output of the modelled `f64`. -/
def F64.toDisplay : F64 → String
  | .finite rep => rep
  | .nan => "NaN"
  | .inf => "inf"
  | .negInf => "-inf"

/-- Abstract model of `d128` (decimal crate): finiteness classification
plus `Display` rendering, which is all the source inspects. -/
inductive D128 where
  | finite (rep : String)
  | nan
  | inf
  | negInf
deriving DecidableEq

def D128.is_finite : D128 → Bool
  | .finite _ => true
  | _ => false

def D128.toDisplay : D128 → String
  | .finite rep => rep
  | .nan => "NaN"
  | .inf => "Infinity"
  | .negInf => "-Infinity"

/-- `as_float` from the source: `f.to_string()` (the `Display` output,
with no finiteness check on this path). -/
def as_float (f : F64) : String := f.toDisplay

/-- `influent::measurement::Value` (the borrowed measurement's field
value union used by `serialize`). -/
inductive Value where
  | String (s : String)
  | Integer (i : Int)
  | Float (f : F64)
  | Boolean (b : Bool)
deriving DecidableEq

/-- `influent::measurement::Measurement` as used by `serialize`:
key, ordered tags, ordered fields, optional timestamp. -/
structure Measurement where
  key : String
  tags : List (String × String)
  fields : List (String × Value)
  timestamp : Option Int
deriving DecidableEq

/-- The field-value match inside `serialize`. -/
def value_literal : Value → String
  | .String s => as_string s
  | .Integer i => as_integer i
  | .Float f => as_float f
  | .Boolean b => as_boolean b

/-- `serialize` from the source: escapes the key, each tag key and tag
value and each field key with `escape`, separates the first field from
the tag section with a space (`was_spaced`), later fields with commas,
and appends ` <timestamp>` when a timestamp is present. -/
def serialize (m : Measurement) : String :=
  let line := escape m.key
  let line := m.tags.foldl
    (fun l kv => l ++ "," ++ escape kv.1 ++ "=" ++ escape kv.2) line
  let line := (m.fields.foldl
    (fun (p : String × Bool) kv =>
      (p.1 ++ (if p.2 then "," else " ") ++ escape kv.1 ++ "=" ++ value_literal kv.2, true))
    (line, false)).1
  match m.timestamp with
  | some t => line ++ " " ++ toString t
  | none => line

/-- `OwnedValue` from the source. -/
inductive OwnedValue where
  | String (s : String)
  | Float (f : F64)
  | Integer (i : Int)
  | Boolean (b : Bool)
  | D128 (d : D128)
  | Uuid (u : String)
deriving DecidableEq

/-- `OwnedMeasurement` from the source (tags and fields are ordered
sequences of pairs; `SmallVec` is modelled as a list). -/
structure OwnedMeasurement where
  key : String
  timestamp : Option Int
  fields : List (String × OwnedValue)
  tags : List (String × String)
deriving DecidableEq

def OwnedMeasurement.new (key : String) : OwnedMeasurement :=
  ⟨key, none, [], []⟩

def OwnedMeasurement.add_tag (m : OwnedMeasurement) (key value : String) :
    OwnedMeasurement :=
  { m with tags := m.tags ++ [(key, value)] }

def OwnedMeasurement.add_field (m : OwnedMeasurement) (key : String)
    (value : OwnedValue) : OwnedMeasurement :=
  { m with fields := m.fields ++ [(key, value)] }

def OwnedMeasurement.set_timestamp (m : OwnedMeasurement) (timestamp : Int) :
    OwnedMeasurement :=
  { m with timestamp := some timestamp }

/-- Helper modelling `self.tags.get_mut(i).map(|x| ...)`: applies `f`
to the element at index `i`, when it exists. -/
def modifyAt {α : Type} (f : α → α) : Nat → List α → List α
  | _, [] => []
  | 0, x :: rest => f x :: rest
  | n + 1, x :: rest => x :: modifyAt f n rest

/-- `set_tag` from the source: finds the first entry whose key equals
`key`; when found, assigns `x.0 = value` on that entry (the source
overwrites the pair's first component); otherwise appends via
`add_tag`. -/
def OwnedMeasurement.set_tag (m : OwnedMeasurement) (key value : String) :
    OwnedMeasurement :=
  match m.tags.findIdx? (fun kv => kv.1 == key) with
  | some i => { m with tags := modifyAt (fun x => (value, x.2)) i m.tags }
  | none => m.add_tag key value

/-- `get_field` from the source: first entry whose key matches. -/
def OwnedMeasurement.get_field (m : OwnedMeasurement) (key : String) :
    Option OwnedValue :=
  (m.fields.find? (fun kv => kv.1 == key)).map (fun kv => kv.2)

/-- `get_tag` from the source: first entry whose key matches. -/
def OwnedMeasurement.get_tag (m : OwnedMeasurement) (key : String) :
    Option String :=
  (m.tags.find? (fun kv => kv.1 == key)).map (fun kv => kv.2)

/-- The field-value match inside `serialize_owned`'s `add_field`
closure: strings via `as_string`, integers with an `i` suffix, booleans
as `t`/`f`, `d128` and `f64` guarded by `is_finite` (emitting `0.0`
otherwise), UUIDs double-quoted. -/
def owned_value_literal : OwnedValue → String
  | .String s => as_string s
  | .Integer i => toString i ++ "i"
  | .Boolean b => as_boolean b
  | .D128 d => if d.is_finite then d.toDisplay else "0.0"
  | .Float f => if f.is_finite then f.toDisplay else "0.0"
  | .Uuid u => "\"" ++ u ++ "\""

/-- `serialize_owned` from the source: key and tag/field keys via
`escape_tag` (removal), tag values via `escape` (backslash escaping),
first field separated by a space and the rest by commas, then
` <timestamp>` when present. -/
def serialize_owned (m : OwnedMeasurement) : String :=
  let line := escape_tag m.key
  let line := m.tags.foldl
    (fun l kv => l ++ "," ++ escape_tag kv.1 ++ "=" ++ escape kv.2) line
  let addField := fun (l : String) (kv : String × OwnedValue) (isFirst : Bool) =>
    l ++ (if isFirst then " " else ",") ++ escape_tag kv.1 ++ "=" ++ owned_value_literal kv.2
  let line :=
    match m.fields with
    | [] => line
    | kv :: rest => rest.foldl (fun l kv => addField l kv false) (addField line kv true)
  match m.timestamp with
  | some t => line ++ " " ++ toString t
  | none => line

/-- Classification of the HTTP response the transport can return:
`Ok` with status 204, `Ok` with any other status (and a readable body),
or a transport-level error (`Err(why)`).  This is exactly the match of
the `send` closure. -/
inductive HttpResult where
  | noContent
  | otherStatus (status : String) (body : String)
  | ioError (why : String)
deriving DecidableEq

/-- The `send` closure from `with_logger`: posts the buffer as the
request body and matches on the response; the 204 arm, the other-status
arm and the error arm all only log (debug/error), so each arm yields
the single posted body and retains nothing for retry or requeue. -/
def send (resp : HttpResult) (buf : String) : List String :=
  match resp with
  | .noContent => [buf]
  | .otherStatus _ _ => [buf]
  | .ioError _ => [buf]

/-- Result of the `next` closure: the returned pending count plus the
final values of the borrowed mutable state (`buf`, `last`), and the
bodies POSTed during the call. -/
structure NextResult where
  count : Nat
  buf : String
  last : Nat
  posts : List String
deriving DecidableEq

/-- The `next` closure from `with_logger`, evaluated once per dequeued
measurement.  `bs` is `buffer_size`, `mp` is `MAX_PENDING` (in the same
time unit as the `Instant`-valued `loopTime`/`last`, modelled as `Nat`):
* `prev = 0` (and `buffer_size > 0`): serialize into the buffer, count 1;
* `prev < buffer_size` and `loop_time - last < MAX_PENDING`: newline,
  serialize, count `prev + 1`;
* otherwise: newline, serialize, `send(buf)`, `last = loop_time`,
  `buf.clear()`, count 0. -/
def next (bs mp : Nat) (resp : HttpResult) (prev : Nat) (m : OwnedMeasurement)
    (buf : String) (loopTime last : Nat) : NextResult :=
  if prev = 0 ∧ 0 < bs then
    ⟨1, buf ++ serialize_owned m, last, []⟩
  else if prev < bs ∧ loopTime - last < mp then
    ⟨prev + 1, buf ++ "\n" ++ serialize_owned m, last, []⟩
  else
    ⟨0, "", loopTime, send resp (buf ++ "\n" ++ serialize_owned m)⟩

/-- The rewriting the receive loop applies to a dequeued measurement
before encoding: stamp `timestamp = Some(now())` when absent, and push
the default field `("n", Integer(1))` when the field list is empty.
`nowNanos` is the writer's wall-clock reading at dequeue time. -/
def prepareMeas (nowNanos : Int) (m : OwnedMeasurement) : OwnedMeasurement :=
  let m1 := if m.timestamp.isNone then { m with timestamp := some nowNanos } else m
  if m1.fields.isEmpty then { m1 with fields := m1.fields ++ [("n", OwnedValue.Integer 1)] }
  else m1

/-- Writer-loop state across iterations: the reusable buffer, the
pending count and the last flush `Instant`. -/
structure WriterState where
  buf : String
  count : Nat
  last : Nat
deriving DecidableEq

/-- One `Ok(Some(meas))` iteration of the receive loop: prepare the
measurement, then run the `next` closure on the current state. -/
def stepMsg (bs mp : Nat) (resp : HttpResult) (nowNanos : Int) (loopTime : Nat)
    (m : OwnedMeasurement) (st : WriterState) : WriterState × List String :=
  let m2 := prepareMeas nowNanos m
  let r := next bs mp resp st.count m2 st.buf loopTime st.last
  (⟨r.buf, r.count, r.last⟩, r.posts)

/-- The synthetic termination-marker measurement built in the shutdown
branch: `OwnedMeasurement::new("wtrterm").add_field("n", Integer(1))`. -/
def termMarker : OwnedMeasurement :=
  (OwnedMeasurement.new "wtrterm").add_field "n" (OwnedValue.Integer 1)

/-- What `rx.recv()` can yield to the loop: a measurement
(`Ok(Some(m))`), the shutdown signal (`Ok(None)`), or a receive error
(matched by the `_` arm, which sleeps briefly). -/
inductive RecvResult where
  | okSome (m : OwnedMeasurement)
  | okNone
  | recvErr

/-- One full iteration of the receive loop in `with_logger`: the
returned flag is `true` exactly when the iteration ends in `break`.
On `Ok(None)` with a non-empty buffer the loop runs the termination
marker through `next` with `prev = buffer_size` and, defensively, sends
the buffer once more if it is still non-empty, then breaks. -/
def loopBody (bs mp : Nat) (resp : HttpResult) (nowNanos : Int) (loopTime : Nat)
    (ev : RecvResult) (st : WriterState) : WriterState × List String × Bool :=
  match ev with
  | .okSome m =>
    let r := stepMsg bs mp resp nowNanos loopTime m st
    (r.1, r.2, false)
  | .okNone =>
    if 0 < st.buf.length then
      let r := next bs mp resp bs termMarker st.buf loopTime st.last
      if r.buf.isEmpty then
        (⟨r.buf, r.count, r.last⟩, r.posts, true)
      else
        (⟨r.buf, r.count, r.last⟩, r.posts ++ send resp r.buf, true)
    else
      (st, [], true)
  | .recvErr => (st, [], false)

/-- The encoded line a dequeued item contributes to the buffer: the
item's measurement after dequeue-time preparation, serialized.  An item
is a triple `(nowNanos, loopTime, measurement)`. -/
def encLine (x : Int × Nat × OwnedMeasurement) : String :=
  serialize_owned (prepareMeas x.1 x.2.2)

/-- A run of consecutive `Ok(Some(..))` iterations: threads the state
through `stepMsg` and concatenates the POSTed bodies in order. -/
def runMsgs (bs mp : Nat) (resp : HttpResult) :
    List (Int × Nat × OwnedMeasurement) → WriterState → WriterState × List String
  | [], st => (st, [])
  | x :: rest, st =>
    let r1 := stepMsg bs mp resp x.1 x.2.1 x.2.2 st
    let r2 := runMsgs bs mp resp rest r1.1
    (r2.1, r1.2 ++ r2.2)

/-- Newline-joining of encoded lines, as the buffer accumulates them. -/
def joinLines : List String → String
  | [] => ""
  | [l] => l
  | l :: l2 :: rest => l ++ "\n" ++ joinLines (l2 :: rest)

/-! ### Character-level characterization of the escaping helpers -/

/-- Specification-level identifier escaping: space, comma and
double-quote are removed, character by character. -/
def specRemove (l : List Char) : List Char :=
  l.filter (fun c => !(c == ' ' || c == ',' || c == '"'))

/-- Specification-level tag-value escaping: space and comma are
backslash-escaped, character by character; all other characters
(including the double-quote) pass through unchanged. -/
def specEscape (l : List Char) : List Char :=
  l.flatMap (fun c =>
    if c = ' ' then ['\\', ' '] else if c = ',' then ['\\', ','] else [c])

/-- String-level view of `specRemove`. -/
def removeSpecial (s : String) : String := ⟨specRemove s.data⟩

/-- String-level view of `specEscape`. -/
def backslashEscape (s : String) : String := ⟨specEscape s.data⟩

lemma replaceChar_cons (p : Char) (rep : List Char) (c : Char) (t : List Char) :
    replaceChar p rep (c :: t) =
      if c = p then rep ++ replaceChar p rep t else c :: replaceChar p rep t := rfl

lemma removeChain (l : List Char) :
    replaceChar '"' [] (replaceChar ',' [] (replaceChar ' ' [] l)) = specRemove l := by
  induction l with
  | nil => rfl
  | cons c t ih =>
    by_cases h1 : c = ' '
    · subst h1
      simpa [replaceChar_cons, specRemove] using ih
    · by_cases h2 : c = ','
      · subst h2
        simpa [replaceChar_cons, specRemove] using ih
      · by_cases h3 : c = '"'
        · subst h3
          simpa [replaceChar_cons, specRemove] using ih
        · simp only [replaceChar_cons, if_neg h1, if_neg h2, if_neg h3, specRemove,
            List.filter_cons]
          simp only [specRemove] at ih
          simp [h1, h2, h3, ih]

lemma escape_tag_eq_specRemove (s : String) : escape_tag s = ⟨specRemove s.data⟩ := by
  unfold escape_tag
  rw [removeChain]

lemma escapeChain (l : List Char) :
    replaceChar ',' ['\\', ','] (replaceChar ' ' ['\\', ' '] l) = specEscape l := by
  induction l with
  | nil => rfl
  | cons c t ih =>
    by_cases h1 : c = ' '
    · subst h1
      simp [replaceChar_cons, specEscape, List.flatMap_cons] at ih ⊢
      exact ih
    · by_cases h2 : c = ','
      · subst h2
        simp [replaceChar_cons, specEscape, List.flatMap_cons] at ih ⊢
        exact ih
      · simp [replaceChar_cons, specEscape, List.flatMap_cons, h1, h2] at ih ⊢
        exact ih

lemma escape_eq_specEscape (s : String) : escape s = ⟨specEscape s.data⟩ := by
  unfold escape
  rw [escapeChain]

/-! ### The quote-escaping pass of `as_string` -/

lemma rEQ_bbq (t : List Char) :
    replaceEscQuote ('\\' :: '\\' :: '"' :: t) = '\\' :: '"' :: replaceEscQuote t := rfl

lemma rEQ_cons_ne (c : Char) (t : List Char) (h : c ≠ '\\') :
    replaceEscQuote (c :: t) = c :: replaceEscQuote t := by
  rw [replaceEscQuote.eq_def]
  split
  · simp_all
  · rename_i t2 heq
    obtain ⟨h1, -⟩ := List.cons.inj heq
    exact absurd h1 h
  · rename_i c2 t2 heq
    obtain ⟨h1, h2⟩ := List.cons.inj heq
    subst h1; subst h2; rfl

lemma rEQ_bs_ne (t : List Char) (h : ∀ t2, t ≠ '\\' :: '"' :: t2) :
    replaceEscQuote ('\\' :: t) = '\\' :: replaceEscQuote t := by
  rw [replaceEscQuote.eq_def]
  split
  · simp_all
  · rename_i t2 heq
    obtain ⟨-, h2⟩ := List.cons.inj heq
    exact absurd h2 (h t2)
  · rename_i c2 t2 heq
    obtain ⟨h1, h2⟩ := List.cons.inj heq
    subst h1; subst h2; rfl

/-- The first replace pass of `as_string` never yields a leading
double-quote (each quote gains a preceding backslash). -/
lemma r1_head_ne (l : List Char) :
    (replaceChar '"' ['\\', '"'] l).head? ≠ some '"' := by
  cases l with
  | nil => simp [replaceChar]
  | cons c t =>
    by_cases h : c = '"'
    · subst h
      rw [replaceChar_cons, if_pos rfl]
      simp
    · rw [replaceChar_cons, if_neg h]
      simp [h]

/-- Every double-quote in the list is immediately preceded by a
backslash: the "already escaped" shape relevant to `as_string`. -/
def quotesEscaped : List Char → Bool
  | [] => true
  | [c] => !(c == '"')
  | c :: c2 :: t =>
    if c = '"' then false
    else if c = '\\' ∧ c2 = '"' then quotesEscaped t
    else quotesEscaped (c2 :: t)

lemma escQ_quote (t : List Char) :
    escQuotes ('"' :: t) = '\\' :: '"' :: escQuotes t := by
  unfold escQuotes
  rw [replaceChar_cons, if_pos rfl]
  show replaceEscQuote ('\\' :: '"' :: replaceChar '"' ['\\', '"'] t) = _
  rw [rEQ_bs_ne _ (fun t2 heq => by simp at heq), rEQ_cons_ne _ _ (by decide)]

lemma escQ_bsq (t : List Char) :
    escQuotes ('\\' :: '"' :: t) = '\\' :: '"' :: escQuotes t := by
  unfold escQuotes
  rw [replaceChar_cons, if_neg (by decide), replaceChar_cons, if_pos rfl]
  exact rEQ_bbq _

lemma escQ_bs_cons (c2 : Char) (t2 : List Char) (h : c2 ≠ '"') :
    escQuotes ('\\' :: c2 :: t2) = '\\' :: escQuotes (c2 :: t2) := by
  have hside : ∀ u, replaceChar '"' ['\\', '"'] (c2 :: t2) ≠ '\\' :: '"' :: u := by
    intro u heq
    rw [replaceChar_cons, if_neg h] at heq
    obtain ⟨h1, h2⟩ := List.cons.inj heq
    subst h1
    exact r1_head_ne t2 (by rw [h2]; rfl)
  unfold escQuotes
  rw [replaceChar_cons, if_neg (by decide), rEQ_bs_ne _ hside]

lemma escQ_bs_nil : escQuotes ['\\'] = ['\\'] := by decide

lemma escQ_cons_other (c : Char) (t : List Char) (hq : c ≠ '"') (hb : c ≠ '\\') :
    escQuotes (c :: t) = c :: escQuotes t := by
  unfold escQuotes
  rw [replaceChar_cons, if_neg hq, rEQ_cons_ne _ _ hb]

lemma qe_quote_head (t : List Char) : quotesEscaped ('"' :: t) = false := by
  cases t <;> simp [quotesEscaped]

lemma qe_bsq (t : List Char) : quotesEscaped ('\\' :: '"' :: t) = quotesEscaped t := by
  simp [quotesEscaped]

lemma qe_bs_cons_ne (c2 : Char) (t2 : List Char) (h : c2 ≠ '"') :
    quotesEscaped ('\\' :: c2 :: t2) = quotesEscaped (c2 :: t2) := by
  show (if ('\\' : Char) = '"' then false
    else if ('\\' : Char) = '\\' ∧ c2 = '"' then quotesEscaped t2
    else quotesEscaped (c2 :: t2)) = quotesEscaped (c2 :: t2)
  rw [if_neg (by decide), if_neg (by simp [h])]

lemma qe_cons_other (c : Char) (t : List Char) (hq : c ≠ '"') (hb : c ≠ '\\') :
    quotesEscaped (c :: t) = quotesEscaped t := by
  cases t with
  | nil => simp [quotesEscaped, hq]
  | cons c2 t2 =>
    show (if c = '"' then false
      else if c = '\\' ∧ c2 = '"' then quotesEscaped t2
      else quotesEscaped (c2 :: t2)) = quotesEscaped (c2 :: t2)
    rw [if_neg hq, if_neg (by simp [hb])]

/-- `replaceEscQuote` preserves the first character. -/
lemma rEQ_head (X : List Char) : (replaceEscQuote X).head? = X.head? := by
  rw [replaceEscQuote.eq_def]
  split
  · rfl
  · rfl
  · rfl

/-- On an input whose double-quotes are all backslash-escaped, the
quote-escaping pass of `as_string` is the identity (one level of
escaping, never two). -/
lemma escQ_fixed_aux : ∀ (n : Nat) (l : List Char), l.length ≤ n →
    quotesEscaped l = true → escQuotes l = l := by
  intro n
  induction n with
  | zero =>
    intro l hl _
    rw [Nat.le_zero, List.length_eq_zero] at hl
    subst hl; rfl
  | succ n ih =>
    intro l hl hq
    cases l with
    | nil => rfl
    | cons c t =>
      by_cases hc : c = '"'
      · subst hc
        rw [qe_quote_head] at hq
        exact absurd hq (by simp)
      · by_cases hb : c = '\\'
        · subst hb
          cases t with
          | nil => exact escQ_bs_nil
          | cons c2 t2 =>
            by_cases h2 : c2 = '"'
            · subst h2
              rw [qe_bsq] at hq
              rw [escQ_bsq]
              rw [ih t2 (by simp at hl; omega) hq]
            · rw [qe_bs_cons_ne _ _ h2] at hq
              rw [escQ_bs_cons _ _ h2]
              rw [ih (c2 :: t2) (by simp at hl ⊢; omega) hq]
        · rw [qe_cons_other _ _ hc hb] at hq
          rw [escQ_cons_other _ _ hc hb]
          rw [ih t (by simp at hl; omega) hq]

/-- The output of the quote-escaping pass always has every double-quote
backslash-escaped. -/
lemma escQ_escaped_aux : ∀ (n : Nat) (l : List Char), l.length ≤ n →
    quotesEscaped (escQuotes l) = true := by
  intro n
  induction n with
  | zero =>
    intro l hl
    rw [Nat.le_zero, List.length_eq_zero] at hl
    subst hl; rfl
  | succ n ih =>
    intro l hl
    cases l with
    | nil => rfl
    | cons c t =>
      by_cases hc : c = '"'
      · subst hc
        rw [escQ_quote, qe_bsq]
        exact ih t (by simp at hl; omega)
      · by_cases hb : c = '\\'
        · subst hb
          cases t with
          | nil => rw [escQ_bs_nil]; rfl
          | cons c2 t2 =>
            by_cases h2 : c2 = '"'
            · subst h2
              rw [escQ_bsq, qe_bsq]
              exact ih t2 (by simp at hl; omega)
            · rw [escQ_bs_cons _ _ h2]
              have hrec := ih (c2 :: t2) (by simp at hl ⊢; omega)
              have hhead : (escQuotes (c2 :: t2)).head? ≠ some '"' := by
                unfold escQuotes
                rw [rEQ_head]
                exact r1_head_ne _
              cases hY : escQuotes (c2 :: t2) with
              | nil => decide
              | cons y ys =>
                have hy : y ≠ '"' := by rw [hY] at hhead; simpa using hhead
                rw [qe_bs_cons_ne _ _ hy]
                rw [hY] at hrec
                exact hrec
        · rw [escQ_cons_other _ _ hc hb, qe_cons_other _ _ hc hb]
          exact ih t (by simp at hl; omega)

lemma escQ_fixed (l : List Char) (h : quotesEscaped l = true) : escQuotes l = l :=
  escQ_fixed_aux l.length l le_rfl h

lemma escQ_escaped (l : List Char) : quotesEscaped (escQuotes l) = true :=
  escQ_escaped_aux l.length l le_rfl

lemma escQ_idem (l : List Char) : escQuotes (escQuotes l) = escQuotes l :=
  escQ_fixed _ (escQ_escaped l)

/-! ### Writer-loop lemmas -/

lemma send_eq (resp : HttpResult) (buf : String) : send resp buf = [buf] := by
  cases resp <;> rfl

lemma length_pos_of_ne (s : String) (h : s ≠ "") : 0 < s.length := by
  cases s with
  | mk data =>
    cases data with
    | nil => exact absurd rfl h
    | cons c cs => simp [String.length]

lemma stepMsg_first (bs mp : Nat) (resp : HttpResult)
    (x : Int × Nat × OwnedMeasurement) (st : WriterState)
    (h : st.count = 0) (hbs : 0 < bs) :
    stepMsg bs mp resp x.1 x.2.1 x.2.2 st =
      (⟨st.buf ++ encLine x, 1, st.last⟩, []) := by
  unfold stepMsg next
  rw [h]
  simp [hbs, encLine]

lemma stepMsg_acc (bs mp : Nat) (resp : HttpResult)
    (x : Int × Nat × OwnedMeasurement) (st : WriterState)
    (h0 : st.count ≠ 0) (hlt : st.count < bs) (ht : x.2.1 - st.last < mp) :
    stepMsg bs mp resp x.1 x.2.1 x.2.2 st =
      (⟨st.buf ++ "\n" ++ encLine x, st.count + 1, st.last⟩, []) := by
  unfold stepMsg next
  simp [h0, hlt, ht, encLine]

lemma stepMsg_flush (bs mp : Nat) (resp : HttpResult)
    (x : Int × Nat × OwnedMeasurement) (st : WriterState)
    (h1 : ¬(st.count = 0 ∧ 0 < bs)) (h2 : ¬(st.count < bs ∧ x.2.1 - st.last < mp)) :
    stepMsg bs mp resp x.1 x.2.1 x.2.2 st =
      (⟨"", 0, x.2.1⟩, [st.buf ++ "\n" ++ encLine x]) := by
  unfold stepMsg next
  simp [h1, h2, send_eq, encLine]

lemma joinLines_snoc (l : List String) (x : String) (h : l ≠ []) :
    joinLines (l ++ [x]) = joinLines l ++ "\n" ++ x := by
  induction l with
  | nil => exact absurd rfl h
  | cons a rest ih =>
    cases rest with
    | nil => simp [joinLines]
    | cons b bs2 =>
      rw [List.cons_append]
      rw [show joinLines (a :: ((b :: bs2) ++ [x])) =
        a ++ "\n" ++ joinLines ((b :: bs2) ++ [x]) from rfl]
      rw [ih (by simp)]
      rw [show joinLines (a :: b :: bs2) = a ++ "\n" ++ joinLines (b :: bs2) from rfl]
      simp [String.append_assoc]

/-- Accumulation: while the pending count stays below `buffer_size` and
`MAX_PENDING` never elapses, a run of `Ok(Some(..))` iterations appends
each encoded line (newline-separated) and POSTs nothing. -/
lemma run_acc (bs mp : Nat) (resp : HttpResult) :
    ∀ (items : List (Int × Nat × OwnedMeasurement)) (st : WriterState)
      (lines : List String),
      st.count = lines.length → st.buf = joinLines lines →
      lines.length + items.length ≤ bs →
      (∀ x ∈ items, x.2.1 - st.last < mp) →
      runMsgs bs mp resp items st =
        (⟨joinLines (lines ++ items.map encLine), lines.length + items.length,
          st.last⟩, []) := by
  intro items
  induction items with
  | nil =>
    intro st lines h1 h2 _ _
    obtain ⟨b, c, la⟩ := st
    simp only [runMsgs, List.map_nil, List.append_nil, List.length_nil, Nat.add_zero]
    simp only at h1 h2
    rw [h1, h2]
  | cons x rest ih =>
    intro st lines h1 h2 hbound htime
    cases lines with
    | nil =>
      have hc0 : st.count = 0 := by simpa using h1
      have hbs : 0 < bs := by simp at hbound; omega
      simp only [runMsgs]
      rw [stepMsg_first bs mp resp x st hc0 hbs]
      have hbuf : st.buf ++ encLine x = encLine x := by
        rw [h2]; exact String.empty_append _
      rw [hbuf]
      rw [ih ⟨encLine x, 1, st.last⟩ [encLine x] rfl rfl
        (by simp at hbound ⊢; omega)
        (fun y hy => htime y (List.mem_cons_of_mem x hy))]
      simp only [List.nil_append, List.map_cons, List.singleton_append, List.length_cons,
        List.length_nil, List.append_nil, Prod.mk.injEq, WriterState.mk.injEq,
        true_and, and_true]
      omega
    | cons line0 lines2 =>
      have hc0 : st.count ≠ 0 := by rw [h1]; simp
      have hlt : st.count < bs := by rw [h1]; simp at hbound ⊢; omega
      have ht : x.2.1 - st.last < mp := htime x (List.mem_cons_self x rest)
      simp only [runMsgs]
      rw [stepMsg_acc bs mp resp x st hc0 hlt ht]
      have hbuf : st.buf ++ "\n" ++ encLine x =
          joinLines ((line0 :: lines2) ++ [encLine x]) := by
        rw [h2, joinLines_snoc _ _ (by simp)]
      rw [hbuf]
      rw [ih ⟨joinLines ((line0 :: lines2) ++ [encLine x]), st.count + 1, st.last⟩
        ((line0 :: lines2) ++ [encLine x])
        (by simp [h1]) rfl
        (by simp at hbound ⊢; omega)
        (fun y hy => htime y (List.mem_cons_of_mem x hy))]
      simp only [List.append_assoc, List.singleton_append, List.cons_append,
        List.map_cons, List.length_append, List.length_cons, List.length_nil,
        List.nil_append, List.append_nil, Prod.mk.injEq, WriterState.mk.injEq,
        true_and, and_true]
      omega

lemma runMsgs_append (bs mp : Nat) (resp : HttpResult)
    (a b : List (Int × Nat × OwnedMeasurement)) (st : WriterState) :
    runMsgs bs mp resp (a ++ b) st =
      ((runMsgs bs mp resp b (runMsgs bs mp resp a st).1).1,
       (runMsgs bs mp resp a st).2 ++
         (runMsgs bs mp resp b (runMsgs bs mp resp a st).1).2) := by
  induction a generalizing st with
  | nil => simp [runMsgs]
  | cons x rest ih =>
    simp only [List.cons_append, runMsgs, List.append_eq]
    rw [ih]
    simp [List.append_assoc]

/-! ### Shutdown lemmas -/

lemma markerLine : serialize_owned termMarker = "wtrterm n=1i" := by decide

lemma next_term (bs mp : Nat) (resp : HttpResult) (buf : String) (lt la : Nat) :
    next bs mp resp bs termMarker buf lt la =
      ⟨0, "", lt, [buf ++ "\n" ++ "wtrterm n=1i"]⟩ := by
  have h1 : ¬(bs = 0 ∧ 0 < bs) := by omega
  have h2 : ¬(bs < bs ∧ lt - la < mp) := fun hx => absurd hx.1 (lt_irrefl bs)
  unfold next
  rw [if_neg h1, if_neg h2, send_eq, markerLine]

lemma loopBody_term_flush (bs mp : Nat) (resp : HttpResult) (now : Int)
    (lt : Nat) (st : WriterState) (h : st.buf ≠ "") :
    loopBody bs mp resp now lt .okNone st =
      (⟨"", 0, lt⟩, [st.buf ++ "\n" ++ "wtrterm n=1i"], true) := by
  unfold loopBody
  rw [if_pos (length_pos_of_ne _ h)]
  simp only [next_term]
  simp
  intro hfalse
  exact absurd hfalse (by decide)

lemma loopBody_term_empty (bs mp : Nat) (resp : HttpResult) (now : Int)
    (lt : Nat) (st : WriterState) (h : st.buf = "") :
    loopBody bs mp resp now lt .okNone st = (st, [], true) := by
  unfold loopBody
  rw [if_neg (by rw [h]; simp)]

lemma loopBody_okSome (bs mp : Nat) (resp : HttpResult) (now : Int)
    (lt : Nat) (m : OwnedMeasurement) (st : WriterState) :
    loopBody bs mp resp now lt (.okSome m) st =
      ((stepMsg bs mp resp now lt m st).1, (stepMsg bs mp resp now lt m st).2, false) := rfl

/-! ### First-match lookup lemmas -/

lemma findPair_none {β : Type} (l : List (String × β)) (k : String) :
    l.find? (fun kv => kv.1 == k) = none ↔ ∀ p ∈ l, p.1 ≠ k := by
  rw [List.find?_eq_none]
  constructor
  · intro h p hp
    simpa using h p hp
  · intro h p hp
    simpa using h p hp

lemma findPair_first {β : Type} (pre suf : List (String × β)) (k : String) (v : β)
    (h : ∀ p ∈ pre, p.1 ≠ k) :
    (pre ++ (k, v) :: suf).find? (fun kv => kv.1 == k) = some (k, v) := by
  induction pre with
  | nil =>
    rw [List.nil_append]
    exact List.find?_cons_of_pos _ (by simp)
  | cons p t ih =>
    rw [List.cons_append, List.find?_cons_of_neg]
    · exact ih (fun q hq => h q (List.mem_cons_of_mem p hq))
    · simpa using h p (List.mem_cons_self p t)

/-! ### Dequeue-time preparation lemmas -/

lemma prepareMeas_fields (t : Int) (m : OwnedMeasurement) :
    (prepareMeas t m).fields =
      if m.fields.isEmpty then [("n", OwnedValue.Integer 1)] else m.fields := by
  unfold prepareMeas
  by_cases hts : m.timestamp.isNone <;> by_cases hf : m.fields.isEmpty <;>
    simp_all [List.isEmpty_iff]

lemma prepareMeas_timestamp (t : Int) (m : OwnedMeasurement) :
    (prepareMeas t m).timestamp = some (m.timestamp.getD t) := by
  unfold prepareMeas
  cases hts : m.timestamp <;> by_cases hf : m.fields.isEmpty <;> simp_all

lemma prepareMeas_key (t : Int) (m : OwnedMeasurement) :
    (prepareMeas t m).key = m.key := by
  unfold prepareMeas
  by_cases hts : m.timestamp.isNone <;> by_cases hf : m.fields.isEmpty <;> simp_all

lemma prepareMeas_tags (t : Int) (m : OwnedMeasurement) :
    (prepareMeas t m).tags = m.tags := by
  unfold prepareMeas
  by_cases hts : m.timestamp.isNone <;> by_cases hf : m.fields.isEmpty <;> simp_all

lemma escape_tag_eq (s : String) : escape_tag s = removeSpecial s :=
  escape_tag_eq_specRemove s

lemma escape_eq (s : String) : escape s = backslashEscape s :=
  escape_eq_specEscape s

/-! ## Claim theorems -/

/-- C3: the claim states that `set_tag` on an existing key `k` replaces
the first matching entry so that looking up `k` afterwards yields the
new value.  The code instead executes `x.0 = value`, overwriting the
entry's KEY with the new value and keeping the old value: on tags
`[("color", "red")]`, `set_tag "color" "blue"` yields
`[("blue", "red")]` and `get_tag "color"` becomes `none`.  The code
contradicts the evident intent of `set_tag(key, value)` (and the spec);
this evaluates the code at the failing input. -/
theorem c3_set_tag_overwrites_key :
    (((OwnedMeasurement.new "m").add_tag "color" "red").set_tag "color" "blue").tags
        = [("blue", "red")]
    ∧ (((OwnedMeasurement.new "m").add_tag "color" "red").set_tag "color" "blue").get_tag
        "color" = none
    ∧ (((OwnedMeasurement.new "m").add_tag "color" "red").set_tag "color" "blue").get_tag
        "color" ≠ some "blue" := by
  decide

/-- C10: the synthetic termination marker has key `wtrterm`, exactly
the single field `("n", Integer 1)`, no tags and no timestamp — the
shutdown path does not run it through the dequeue-time rewriting — so
its encoded line is exactly `wtrterm n=1i`, with no trailing
timestamp. -/
theorem c10_term_marker :
    termMarker.key = "wtrterm"
    ∧ termMarker.fields = [("n", OwnedValue.Integer 1)]
    ∧ termMarker.tags = []
    ∧ termMarker.timestamp = none
    ∧ serialize_owned termMarker = "wtrterm n=1i" :=
  ⟨rfl, rfl, rfl, rfl, markerLine⟩

/-- C9: `get_tag` and `get_field` return the value of the first
(earliest-inserted) entry whose key matches, and return `none` exactly
when no entry has the key. -/
theorem c9_first_match :
    (∀ (m : OwnedMeasurement) (k : String),
      m.get_tag k = none ↔ ∀ p ∈ m.tags, p.1 ≠ k)
    ∧ (∀ (m : OwnedMeasurement) (k v : String)
        (pre suf : List (String × String)),
      m.tags = pre ++ (k, v) :: suf → (∀ p ∈ pre, p.1 ≠ k) →
      m.get_tag k = some v)
    ∧ (∀ (m : OwnedMeasurement) (k : String),
      m.get_field k = none ↔ ∀ p ∈ m.fields, p.1 ≠ k)
    ∧ (∀ (m : OwnedMeasurement) (k : String) (v : OwnedValue)
        (pre suf : List (String × OwnedValue)),
      m.fields = pre ++ (k, v) :: suf → (∀ p ∈ pre, p.1 ≠ k) →
      m.get_field k = some v) := by
  refine ⟨?_, ?_, ?_, ?_⟩
  · intro m k
    unfold OwnedMeasurement.get_tag
    rw [Option.map_eq_none']
    exact findPair_none m.tags k
  · intro m k v pre suf hm hpre
    unfold OwnedMeasurement.get_tag
    rw [hm, findPair_first pre suf k v hpre]
    rfl
  · intro m k
    unfold OwnedMeasurement.get_field
    rw [Option.map_eq_none']
    exact findPair_none m.fields k
  · intro m k v pre suf hm hpre
    unfold OwnedMeasurement.get_field
    rw [hm, findPair_first pre suf k v hpre]
    rfl

/-- Witness for C9 on a measurement with duplicate tag keys and
duplicate field keys. -/
theorem c9_first_match_witness :
    (⟨"m", none, [("f", OwnedValue.Integer 1), ("f", OwnedValue.Integer 2)],
      [("a", "1"), ("a", "2")]⟩ : OwnedMeasurement).get_tag "a" = some "1"
    ∧ (⟨"m", none, [("f", OwnedValue.Integer 1), ("f", OwnedValue.Integer 2)],
      [("a", "1"), ("a", "2")]⟩ : OwnedMeasurement).get_tag "zz" = none
    ∧ (⟨"m", none, [("f", OwnedValue.Integer 1), ("f", OwnedValue.Integer 2)],
      [("a", "1"), ("a", "2")]⟩ : OwnedMeasurement).get_field "f"
        = some (OwnedValue.Integer 1) :=
  ⟨c9_first_match.2.1 _ "a" "1" [] [("a", "2")] rfl (by decide),
   (c9_first_match.1 _ "zz").mpr (by decide),
   c9_first_match.2.2.2 _ "f" (OwnedValue.Integer 1) [] [("f", OwnedValue.Integer 2)]
     rfl (by decide)⟩

/-- C6: `as_string` is the double-quote wrap of the two replace passes
(escape quotes, then collapse doubled backslash-quote); on a string
whose quotes are already backslash-escaped the passes are the identity,
so the result carries exactly one level of quote-escaping, never two;
and the quote-escaping pass is idempotent. -/
theorem c6_as_string_no_double_escape :
    (∀ s : String, as_string s = "\"" ++ String.mk (escQuotes s.data) ++ "\"")
    ∧ (∀ s : String, quotesEscaped s.data = true →
        as_string s = "\"" ++ s ++ "\"")
    ∧ (∀ l : List Char, escQuotes (escQuotes l) = escQuotes l) := by
  refine ⟨fun s => rfl, ?_, escQ_idem⟩
  intro s hq
  unfold as_string
  rw [escQ_fixed _ hq]

/-- Witness for C6 at the string of the repository's own
no-double-escape test (a raw value already containing backslash-escaped
quotes). -/
theorem c6_as_string_no_double_escape_witness :
    as_string "this is \\\"an escaped string\\\" and problematic" =
      "\"" ++ "this is \\\"an escaped string\\\" and problematic" ++ "\"" :=
  c6_as_string_no_double_escape.2.1 _ (by decide)

/-- C7: the writer rewrites a dequeued measurement before encoding —
the default field `("n", Integer 1)` is added exactly when the field
list is empty, and the timestamp is set to the dequeue-time clock
reading exactly when absent — so `{key:"test", tags:[], fields:[],
timestamp:None}` encodes as `test n=1i <ts>` with `<ts>` the
dequeue-time reading `t`. -/
theorem c7_dequeue_rewrite :
    (∀ (t : Int) (m : OwnedMeasurement),
      (prepareMeas t m).fields =
          (if m.fields.isEmpty then [("n", OwnedValue.Integer 1)] else m.fields)
        ∧ (prepareMeas t m).timestamp = some (m.timestamp.getD t)
        ∧ (prepareMeas t m).key = m.key
        ∧ (prepareMeas t m).tags = m.tags)
    ∧ (∀ t : Int,
      serialize_owned (prepareMeas t (OwnedMeasurement.new "test")) =
        "test n=1i " ++ toString t) := by
  refine ⟨fun t m => ⟨prepareMeas_fields t m, prepareMeas_timestamp t m,
    prepareMeas_key t m, prepareMeas_tags t m⟩, ?_⟩
  intro t
  show ("test n=1i" : String) ++ " " ++ toString t = "test n=1i " ++ toString t
  rw [show ("test n=1i" : String) ++ " " = "test n=1i " from rfl]

/-- C4 counterexample: the claim asserts the `0.0` normalization for
every encoding path, but the `serialize` path formats a NaN float field
with `Display` (`as_float`), emitting `NaN` rather than `0.0`. -/
theorem c4_serialize_propagates_nan :
    serialize ⟨"test", [], [("x", Value.Float F64.nan)], none⟩ = "test x=NaN"
    ∧ serialize ⟨"test", [], [("x", Value.Float F64.nan)], none⟩ ≠ "test x=0.0" := by
  decide

/-- C4 (amended): the non-finite normalization holds on the
`serialize_owned` path — the writer's encoder — for both float and
`d128` field values: non-finite values encode as `0.0`, finite values
as their `Display` rendering; the `serialize` path instead emits the
float's `Display` output unconditionally. -/
theorem c4_owned_normalizes_nonfinite :
    (∀ f : F64, f.is_finite = false →
      owned_value_literal (OwnedValue.Float f) = "0.0")
    ∧ (∀ f : F64, f.is_finite = true →
      owned_value_literal (OwnedValue.Float f) = f.toDisplay)
    ∧ (∀ d : D128, d.is_finite = false →
      owned_value_literal (OwnedValue.D128 d) = "0.0")
    ∧ (∀ d : D128, d.is_finite = true →
      owned_value_literal (OwnedValue.D128 d) = d.toDisplay)
    ∧ (∀ (key : String) (f : F64), f.is_finite = false →
      serialize_owned ⟨key, none, [("x", OwnedValue.Float f)], []⟩ =
        escape_tag key ++ " x=0.0") := by
  refine ⟨?_, ?_, ?_, ?_, ?_⟩
  · intro f hf
    simp [owned_value_literal, hf]
  · intro f hf
    simp [owned_value_literal, hf]
  · intro d hd
    simp [owned_value_literal, hd]
  · intro d hd
    simp [owned_value_literal, hd]
  · intro key f hf
    show escape_tag key ++ " " ++ escape_tag "x" ++ "=" ++
      owned_value_literal (OwnedValue.Float f) = escape_tag key ++ " x=0.0"
    rw [show owned_value_literal (OwnedValue.Float f) = "0.0" from by
      simp [owned_value_literal, hf]]
    rw [show escape_tag "x" = "x" from rfl]
    rw [String.append_assoc, String.append_assoc, String.append_assoc]
    rw [show (" " : String) ++ ("x" ++ ("=" ++ "0.0")) = " x=0.0" from rfl]

/-- Witness for C4 at concrete non-finite and finite values. -/
theorem c4_owned_normalizes_nonfinite_witness :
    owned_value_literal (OwnedValue.Float F64.nan) = "0.0"
    ∧ owned_value_literal (OwnedValue.Float (F64.finite "1.5")) = "1.5"
    ∧ owned_value_literal (OwnedValue.D128 D128.inf) = "0.0"
    ∧ owned_value_literal (OwnedValue.D128 (D128.finite "2.5")) = "2.5"
    ∧ serialize_owned ⟨"t", none, [("x", OwnedValue.Float F64.negInf)], []⟩ =
        escape_tag "t" ++ " x=0.0" :=
  ⟨c4_owned_normalizes_nonfinite.1 F64.nan rfl,
   c4_owned_normalizes_nonfinite.2.1 (F64.finite "1.5") rfl,
   c4_owned_normalizes_nonfinite.2.2.1 D128.inf rfl,
   c4_owned_normalizes_nonfinite.2.2.2.1 (D128.finite "2.5") rfl,
   c4_owned_normalizes_nonfinite.2.2.2.2 "t" F64.negInf rfl⟩

/-- C5 counterexample: the claim asserts removal-based identifier
escaping for both entry points, but `serialize` escapes the measurement
key (and tag/field keys) with the backslash-escaping `escape`, so a key
containing a space encodes as `a\ b`, not `ab`. -/
theorem c5_serialize_backslash_escapes_key :
    serialize ⟨"a b", [], [("c", Value.Integer 1)], none⟩ = "a\\ b c=1i"
    ∧ serialize ⟨"a b", [], [("c", Value.Integer 1)], none⟩ ≠ "ab c=1i" := by
  decide

/-- C5 (amended): in `serialize_owned` the measurement key, tag keys
and field keys are escaped by removing space, comma and double-quote,
and tag values by backslash-escaping space and comma (double-quote kept
as-is); `serialize` instead applies the backslash-escaping
`escape` uniformly to key, tag keys, tag values and field keys. -/
theorem c5_escaping_regimes :
    (∀ s : String, escape_tag s = removeSpecial s)
    ∧ (∀ s : String, escape s = backslashEscape s)
    ∧ (∀ (key tk tv fk : String) (n ts : Int),
      serialize_owned ⟨key, some ts, [(fk, OwnedValue.Integer n)], [(tk, tv)]⟩ =
        removeSpecial key ++ "," ++ removeSpecial tk ++ "=" ++ backslashEscape tv
          ++ " " ++ removeSpecial fk ++ "=" ++ (toString n ++ "i") ++ " " ++ toString ts)
    ∧ (∀ (key tk tv fk : String) (n ts : Int),
      serialize ⟨key, [(tk, tv)], [(fk, Value.Integer n)], some ts⟩ =
        backslashEscape key ++ "," ++ backslashEscape tk ++ "=" ++ backslashEscape tv
          ++ " " ++ backslashEscape fk ++ "=" ++ (toString n ++ "i") ++ " " ++ toString ts) := by
  refine ⟨escape_tag_eq, escape_eq, ?_, ?_⟩
  · intro key tk tv fk n ts
    show escape_tag key ++ "," ++ escape_tag tk ++ "=" ++ escape tv
        ++ " " ++ escape_tag fk ++ "=" ++ (toString n ++ "i") ++ " " ++ toString ts = _
    rw [escape_tag_eq, escape_tag_eq, escape_tag_eq, escape_eq]
  · intro key tk tv fk n ts
    show escape key ++ "," ++ escape tk ++ "=" ++ escape tv
        ++ " " ++ escape fk ++ "=" ++ (toString n ++ "i") ++ " " ++ toString ts = _
    rw [escape_eq, escape_eq, escape_eq, escape_eq]

/-- C2: on the shutdown signal (`Ok(None)`) with a non-empty buffer,
the loop builds the termination marker and runs it through the ordinary
transition rule — producing exactly one POST whose body is every
pending encoded line plus the marker line `wtrterm n=1i` (the defensive
re-send never fires, because the buffer is empty right after that
flush) — and the iteration breaks; with an empty buffer no POST occurs
and the iteration breaks.  An `Ok(None)` iteration always ends in
`break`, so the receive loop is never re-entered. -/
theorem c2_shutdown_flush :
    (∀ (bs mp : Nat) (resp : HttpResult) (now : Int) (lt : Nat)
        (st : WriterState), st.buf ≠ "" →
      loopBody bs mp resp now lt .okNone st =
        (⟨"", 0, lt⟩, [st.buf ++ "\n" ++ "wtrterm n=1i"], true))
    ∧ (∀ (bs mp : Nat) (resp : HttpResult) (now : Int) (lt : Nat)
        (st : WriterState), st.buf = "" →
      loopBody bs mp resp now lt .okNone st = (st, [], true))
    ∧ (∀ (bs mp : Nat) (resp : HttpResult) (now : Int) (lt : Nat)
        (st : WriterState),
      (loopBody bs mp resp now lt .okNone st).2.2 = true) := by
  refine ⟨loopBody_term_flush, loopBody_term_empty, ?_⟩
  intro bs mp resp now lt st
  by_cases h : st.buf = ""
  · rw [loopBody_term_empty bs mp resp now lt st h]
  · rw [loopBody_term_flush bs mp resp now lt st h]

/-- Witness for C2 with three pending lines in the buffer, and with an
empty buffer. -/
theorem c2_shutdown_flush_witness :
    loopBody 4096 5 .noContent 0 9 .okNone ⟨"a n=1i 5\nb n=2i 6\nc n=3i 7", 3, 2⟩ =
      (⟨"", 0, 9⟩, ["a n=1i 5\nb n=2i 6\nc n=3i 7" ++ "\n" ++ "wtrterm n=1i"], true)
    ∧ loopBody 4096 5 .noContent 0 9 .okNone ⟨"", 0, 2⟩ = (⟨"", 0, 2⟩, [], true) :=
  ⟨c2_shutdown_flush.1 4096 5 .noContent 0 9 ⟨"a n=1i 5\nb n=2i 6\nc n=3i 7", 3, 2⟩
      (by decide),
   c2_shutdown_flush.2.1 4096 5 .noContent 0 9 ⟨"", 0, 2⟩ rfl⟩

/-- C8: every arm of the response match in `send` only logs, so each
outcome (204, other status, transport error) yields the single posted
body and retains nothing for retry or requeue; a whole loop iteration
is independent of the response; after a flush step the buffer is empty
and the count zero whatever the outcome, the batch appearing exactly
once in the POST list; and a measurement iteration never ends in
`break`, so the loop continues to the next receive. -/
theorem c8_batch_dropped :
    (∀ (resp : HttpResult) (buf : String), send resp buf = [buf])
    ∧ (∀ (bs mp : Nat) (r1 r2 : HttpResult) (now : Int) (lt : Nat)
        (ev : RecvResult) (st : WriterState),
      loopBody bs mp r1 now lt ev st = loopBody bs mp r2 now lt ev st)
    ∧ (∀ (bs mp : Nat) (resp : HttpResult) (now : Int) (lt : Nat)
        (m : OwnedMeasurement) (st : WriterState),
      ¬(st.count = 0 ∧ 0 < bs) → ¬(st.count < bs ∧ lt - st.last < mp) →
      stepMsg bs mp resp now lt m st =
        (⟨"", 0, lt⟩, [st.buf ++ "\n" ++ serialize_owned (prepareMeas now m)]))
    ∧ (∀ (bs mp : Nat) (resp : HttpResult) (now : Int) (lt : Nat)
        (m : OwnedMeasurement) (st : WriterState),
      (loopBody bs mp resp now lt (.okSome m) st).2.2 = false) := by
  refine ⟨send_eq, ?_, ?_, fun bs mp resp now lt m st => rfl⟩
  · intro bs mp r1 r2 now lt ev st
    cases ev with
    | okSome m =>
      rw [loopBody_okSome, loopBody_okSome]
      have hstep : stepMsg bs mp r1 now lt m st = stepMsg bs mp r2 now lt m st := by
        unfold stepMsg next
        simp only [send_eq]
      rw [hstep]
    | okNone =>
      by_cases h : st.buf = ""
      · rw [loopBody_term_empty bs mp r1 now lt st h,
          loopBody_term_empty bs mp r2 now lt st h]
      · rw [loopBody_term_flush bs mp r1 now lt st h,
          loopBody_term_flush bs mp r2 now lt st h]
    | recvErr => rfl
  · intro bs mp resp now lt m st h1 h2
    exact stepMsg_flush bs mp resp (now, lt, m) st h1 h2

/-- Witness for C8 at a full buffer and a non-204 response. -/
theorem c8_batch_dropped_witness :
    stepMsg 2 5 (.otherStatus "500" "oops") 7 9 (OwnedMeasurement.new "k")
        ⟨"x n=1i 3\ny n=1i 4", 2, 4⟩ =
      (⟨"", 0, 9⟩,
       ["x n=1i 3\ny n=1i 4" ++ "\n" ++
         serialize_owned (prepareMeas 7 (OwnedMeasurement.new "k"))]) :=
  c8_batch_dropped.2.2.1 2 5 (.otherStatus "500" "oops") 7 9
    (OwnedMeasurement.new "k") ⟨"x n=1i 3\ny n=1i 4", 2, 4⟩ (by decide) (by decide)

/-- C1: the per-item transition rule of the flush policy, and the
resulting batch counts.  With buffer size `N > 0`: the first item of a
batch (count 0) is appended with no POST even under time pressure; an
item with `0 < count < N` and `MAX_PENDING` not elapsed is appended
with no POST; the item arriving with `count = N` is appended first and
then exactly one POST is made whose body is all `N + 1`
newline-separated encoded lines, after which the count is 0, the buffer
is empty and the last-flush time is the loop time.  Consequently,
enqueuing exactly `N` items from the empty state (time never elapsing)
triggers zero POSTs, and `N + 1` items trigger exactly one POST whose
body joins all `N + 1` lines. -/
theorem c1_flush_policy :
    (∀ (bs mp : Nat) (resp : HttpResult) (x : Int × Nat × OwnedMeasurement)
        (st : WriterState), st.count = 0 → 0 < bs →
      stepMsg bs mp resp x.1 x.2.1 x.2.2 st =
        (⟨st.buf ++ encLine x, 1, st.last⟩, []))
    ∧ (∀ (bs mp : Nat) (resp : HttpResult) (x : Int × Nat × OwnedMeasurement)
        (st : WriterState), st.count ≠ 0 → st.count < bs → x.2.1 - st.last < mp →
      stepMsg bs mp resp x.1 x.2.1 x.2.2 st =
        (⟨st.buf ++ "\n" ++ encLine x, st.count + 1, st.last⟩, []))
    ∧ (∀ (bs mp : Nat) (resp : HttpResult) (x : Int × Nat × OwnedMeasurement)
        (st : WriterState), st.count = bs → 0 < bs →
      stepMsg bs mp resp x.1 x.2.1 x.2.2 st =
        (⟨"", 0, x.2.1⟩, [st.buf ++ "\n" ++ encLine x]))
    ∧ (∀ (bs mp : Nat) (resp : HttpResult) (la : Nat)
        (items : List (Int × Nat × OwnedMeasurement)), 0 < bs →
      items.length = bs → (∀ x ∈ items, x.2.1 - la < mp) →
      runMsgs bs mp resp items ⟨"", 0, la⟩ =
        (⟨joinLines (items.map encLine), bs, la⟩, []))
    ∧ (∀ (bs mp : Nat) (resp : HttpResult) (la : Nat)
        (items : List (Int × Nat × OwnedMeasurement))
        (xtra : Int × Nat × OwnedMeasurement), 0 < bs →
      items.length = bs → (∀ x ∈ items, x.2.1 - la < mp) →
      runMsgs bs mp resp (items ++ [xtra]) ⟨"", 0, la⟩ =
        (⟨"", 0, xtra.2.1⟩, [joinLines ((items ++ [xtra]).map encLine)])) := by
  refine ⟨stepMsg_first, stepMsg_acc, ?_, ?_, ?_⟩
  · intro bs mp resp x st hc hbs
    refine stepMsg_flush bs mp resp x st ?_ ?_
    · rintro ⟨h0, -⟩
      rw [hc] at h0
      omega
    · rintro ⟨hlt, -⟩
      rw [hc] at hlt
      exact lt_irrefl bs hlt
  · intro bs mp resp la items hbs hlen htime
    rw [run_acc bs mp resp items ⟨"", 0, la⟩ [] rfl rfl (by simp [hlen]) htime]
    simp [hlen]
  · intro bs mp resp la items xtra hbs hlen htime
    rw [runMsgs_append]
    rw [run_acc bs mp resp items ⟨"", 0, la⟩ [] rfl rfl (by simp [hlen]) htime]
    simp only [List.nil_append, List.length_nil, Nat.zero_add]
    have hne : items.map encLine ≠ [] := by
      intro h0
      rw [List.map_eq_nil_iff] at h0
      subst h0
      simp at hlen
      omega
    have hflush : stepMsg bs mp resp xtra.1 xtra.2.1 xtra.2.2
        ⟨joinLines (items.map encLine), items.length, la⟩ =
        (⟨"", 0, xtra.2.1⟩,
         [joinLines (items.map encLine) ++ "\n" ++ encLine xtra]) := by
      refine stepMsg_flush bs mp resp xtra _ ?_ ?_
      · rintro ⟨h0, -⟩
        have h0n : items.length = 0 := h0
        omega
      · rintro ⟨hlt, -⟩
        exact absurd (hlen ▸ (hlt : items.length < bs)) (lt_irrefl bs)
    have hjoin : joinLines (items.map encLine) ++ "\n" ++ encLine xtra =
        joinLines ((items ++ [xtra]).map encLine) := by
      simp only [List.map_append, List.map_cons, List.map_nil]
      rw [joinLines_snoc _ _ hne]
    simp only [runMsgs]
    rw [hflush, hjoin]
    simp

/-- Concrete dequeued item used by the C1 witness: measurement `k`
dequeued at wall-clock 0 with loop time 1. -/
def c1Item : Int × Nat × OwnedMeasurement := (0, 1, OwnedMeasurement.new "k")

/-- Witness for C1 with `N = 2`: the three per-item rules at concrete
states, two items giving zero POSTs, and three items giving one POST of
three lines. -/
theorem c1_flush_policy_witness :
    stepMsg 2 5 .noContent c1Item.1 c1Item.2.1 c1Item.2.2 ⟨"", 0, 0⟩ =
      (⟨"" ++ encLine c1Item, 1, 0⟩, [])
    ∧ stepMsg 2 5 .noContent c1Item.1 c1Item.2.1 c1Item.2.2 ⟨"k n=1i 0", 1, 0⟩ =
      (⟨"k n=1i 0" ++ "\n" ++ encLine c1Item, 2, 0⟩, [])
    ∧ stepMsg 2 5 .noContent c1Item.1 c1Item.2.1 c1Item.2.2
        ⟨"k n=1i 0\nk n=1i 0", 2, 0⟩ =
      (⟨"", 0, 1⟩, ["k n=1i 0\nk n=1i 0" ++ "\n" ++ encLine c1Item])
    ∧ runMsgs 2 5 .noContent [c1Item, c1Item] ⟨"", 0, 0⟩ =
      (⟨joinLines ([c1Item, c1Item].map encLine), 2, 0⟩, [])
    ∧ runMsgs 2 5 .noContent ([c1Item, c1Item] ++ [c1Item]) ⟨"", 0, 0⟩ =
      (⟨"", 0, 1⟩, [joinLines (([c1Item, c1Item] ++ [c1Item]).map encLine)]) :=
  ⟨c1_flush_policy.1 2 5 .noContent c1Item ⟨"", 0, 0⟩ rfl (by decide),
   c1_flush_policy.2.1 2 5 .noContent c1Item ⟨"k n=1i 0", 1, 0⟩
      (by decide) (by decide) (by decide),
   c1_flush_policy.2.2.1 2 5 .noContent c1Item ⟨"k n=1i 0\nk n=1i 0", 2, 0⟩
      rfl (by decide),
   c1_flush_policy.2.2.2.1 2 5 .noContent 0 [c1Item, c1Item]
      (by decide) rfl (by decide),
   c1_flush_policy.2.2.2.2 2 5 .noContent 0 [c1Item, c1Item] c1Item
      (by decide) rfl (by decide)⟩

end Influx
